import Mathlib

/-!
Verification of the LSB steganography tool (steg_cli.c / steg.c / formats.c)
against its natural-language specification.

The C code is shallowly embedded: a FILE stream is a list of byte values
(natural numbers below 256 in every real container), reading is list
indexing with take and drop, and the integer error codes STEG_SUCCESS,
STEG_FILE_ERROR, STEG_INVALID_BMP, STEG_INSUFFICIENT_CAPACITY,
STEG_MEMORY_ERROR become an explicit result type.  Machine arithmetic is
modelled with Nat and explicit reductions modulo 2 ^ 64 where the C code
can wrap a size_t value.
-/

/-- Error codes of steg.h (STEG_FILE_ERROR, STEG_INVALID_BMP,
STEG_INSUFFICIENT_CAPACITY, STEG_MEMORY_ERROR). -/
inductive StegErr where
  | fileError
  | invalidBmp
  | insufficientCapacity
  | memoryError
deriving DecidableEq, Repr

/-- Outcome of a codec operation: STEG_SUCCESS carrying the produced value,
or one of the error codes. -/
inductive StegResult (α : Type) where
  | ok (val : α)
  | error (e : StegErr)
deriving DecidableEq, Repr

/-- Sequencing of codec operations (used only to state round-trip facts). -/
def StegResult.bind {α β : Type} (r : StegResult α) (f : α → StegResult β) :
    StegResult β :=
  match r with
  | .ok a => f a
  | .error e => .error e

/-- Little-endian 16-bit read, as the C struct field access performs on the
first two bytes of a packed struct on a little-endian machine. -/
def le16 (l : List Nat) : Nat :=
  l.getD 0 0 ||| (l.getD 1 0 <<< 8)

/-- Little-endian 32-bit read of four bytes. -/
def le32 (l : List Nat) : Nat :=
  l.getD 0 0 ||| (l.getD 1 0 <<< 8) ||| (l.getD 2 0 <<< 16) ||| (l.getD 3 0 <<< 24)

/-- Big-endian 32-bit read, as formats.c computes chunk and segment lengths:
(b0 shifted left 24) or (b1 shifted left 16) or (b2 shifted left 8) or b3. -/
def be32 (l : List Nat) : Nat :=
  (l.getD 0 0 <<< 24) ||| (l.getD 1 0 <<< 16) ||| (l.getD 2 0 <<< 8) ||| l.getD 3 0

/-- The uint16_t signature field of bmp_file_header_t: first two bytes of the
stream read little-endian.  BMP_SIGNATURE is 0x4D42 = 19778. -/
def bmpSignatureField (input : List Nat) : Nat :=
  le16 (input.take 2)

/-- The bits_per_pixel field of bmp_info_header_t: bytes 28 and 29 of the
stream, little-endian. -/
def bmpBitsPerPixelField (input : List Nat) : Nat :=
  le16 ((input.drop 28).take 2)

/-- The compression field of bmp_info_header_t: bytes 30 to 33 of the stream,
little-endian. -/
def bmpCompressionField (input : List Nat) : Nat :=
  le32 ((input.drop 30).take 4)

/-- validate_bmp_format of steg.c: fread of the 14-byte file header (failing
with STEG_FILE_ERROR when fewer than 14 bytes are available), signature check,
fread of the 40-byte info header (STEG_FILE_ERROR when fewer than 54 bytes are
available in total), then the 24-bit and uncompressed checks. -/
def validate_bmp_format (input : List Nat) : StegResult Unit :=
  if input.length < 14 then .error .fileError
  else if bmpSignatureField input ≠ 19778 then .error .invalidBmp
  else if input.length < 54 then .error .fileError
  else if bmpBitsPerPixelField input ≠ 24 then .error .invalidBmp
  else if bmpCompressionField input ≠ 0 then .error .invalidBmp
  else .ok ()

/-- calculate_message_capacity of steg.c: the file size is measured with
ftell, BMP_HEADER_SIZE = 54 is subtracted in size_t arithmetic (wrapping
modulo 2 ^ 64 exactly as the C unsigned subtraction does), and the result is
divided by 8. -/
def calculate_message_capacity (fileSize : Nat) : Nat :=
  ((fileSize + (2 ^ 64 - 54)) % 2 ^ 64) / 8

/-- The eight bits of one message byte, most significant first, as the
embed_message loop reads them: bit_pos from 7 down to 0, bit equal to the
byte shifted right by bit_pos, masked with 1. -/
def byteBitsMSB (ch : Nat) : List Nat :=
  [(ch >>> 7) &&& 1, (ch >>> 6) &&& 1, (ch >>> 5) &&& 1, (ch >>> 4) &&& 1,
   (ch >>> 3) &&& 1, (ch >>> 2) &&& 1, (ch >>> 1) &&& 1, ch &&& 1]

/-- The bit stream of a byte sequence, most-significant-bit first per byte. -/
def bitsOfBytesMSB : List Nat → List Nat
  | [] => []
  | c :: cs => byteBitsMSB c ++ bitsOfBytesMSB cs

/-- The per-byte loop of embed_message: for each remaining message bit, read
one carrier byte (STEG_FILE_ERROR when the stream is exhausted), clear its
least significant bit with the mask 0xFE = 254 and insert the message bit,
and write it; once the bits are exhausted the remaining carrier bytes are
copied through unchanged.  The second component is the byte sequence written
to the output stream up to the point of failure. -/
def embedBitsW : List Nat → List Nat → StegResult Unit × List Nat
  | [], pixels => (.ok (), pixels)
  | _ :: _, [] => (.error .fileError, [])
  | bit :: bits, p :: ps =>
    let r := embedBitsW bits ps
    (r.1, ((p &&& 254) ||| bit) :: r.2)

/-- embed_message of steg.c.  The input stream is validated, the capacity is
computed from the stream length, a message needing more than the capacity
(length plus one for the appended terminator) is rejected with
STEG_INSUFFICIENT_CAPACITY, then the 54-byte header is copied and every bit
of the message followed by the zero terminator is embedded
most-significant-bit first into the least significant bits of consecutive
carrier bytes.  The second component is the byte sequence written to the
output stream (empty when the function returns before its first write). -/
def embed_message (msg input : List Nat) : StegResult Unit × List Nat :=
  match validate_bmp_format input with
  | .error e => (.error e, [])
  | .ok _ =>
    if msg.length + 1 > calculate_message_capacity input.length then
      (.error .insufficientCapacity, [])
    else if input.length < 54 then (.error .fileError, [])
    else
      let r := embedBitsW (bitsOfBytesMSB (msg ++ [0])) (input.drop 54)
      (r.1, input.take 54 ++ r.2)

/-- One extracted character of extract_message: the least significant bits of
eight carrier bytes, the first carrier byte giving bit position 7. -/
def assembleMSB (bs : List Nat) : Nat :=
  ((bs.getD 0 0 &&& 1) <<< 7) ||| ((bs.getD 1 0 &&& 1) <<< 6) |||
  ((bs.getD 2 0 &&& 1) <<< 5) ||| ((bs.getD 3 0 &&& 1) <<< 4) |||
  ((bs.getD 4 0 &&& 1) <<< 3) ||| ((bs.getD 5 0 &&& 1) <<< 2) |||
  ((bs.getD 6 0 &&& 1) <<< 1) ||| (bs.getD 7 0 &&& 1)

/-- The character loop of extract_message: while the buffer position is below
max_len minus one, read eight carrier bytes (STEG_FILE_ERROR when any of the
eight reads fails, i.e. when fewer than eight bytes remain), assemble a
character, stop successfully when the character is zero, otherwise store it
and continue.  Reaching the bound leaves the loop with STEG_SUCCESS.  The
returned list holds the characters stored before the terminator, i.e. the
string the caller receives.  Every iteration consumes eight carrier bytes, so
fuel bounds the iteration count and the 0 case is unreachable from the entry
point, which passes more fuel than there are carrier bytes. -/
def extractLoopF (fuel bound : Nat) (acc pixels : List Nat) : StegResult (List Nat) :=
  match fuel with
  | 0 => .error .fileError
  | fuel + 1 =>
    if acc.length < bound then
      if pixels.length < 8 then .error .fileError
      else
        if assembleMSB (pixels.take 8) = 0 then .ok acc
        else extractLoopF fuel bound (acc ++ [assembleMSB (pixels.take 8)]) (pixels.drop 8)
    else .ok acc

/-- extract_message of steg.c: rejects a zero max_len, validates the stream,
skips the 54-byte header and runs the character loop with bound
max_len minus one. -/
def extract_message (maxLen : Nat) (input : List Nat) : StegResult (List Nat) :=
  if maxLen = 0 then .error .fileError
  else
    match validate_bmp_format input with
    | .error e => .error e
    | .ok _ => extractLoopF ((input.drop 54).length + 1) (maxLen - 1) [] (input.drop 54)

/-- The fixed 8-byte PNG signature of formats.c. -/
def pngSignatureBytes : List Nat := [137, 80, 78, 71, 13, 10, 26, 10]

/-- The ASCII bytes of the chunk type IDAT. -/
def idatType : List Nat := [73, 68, 65, 84]

/-- The ASCII bytes of the chunk type IEND. -/
def iendType : List Nat := [73, 69, 78, 68]

/-- png_validate of formats.c: read eight bytes and compare them with the
PNG signature; any shorter stream or mismatch yields 0. -/
def png_validate (input : List Nat) : Bool :=
  input.take 8 == pngSignatureBytes

/-- Two's-complement reinterpretation of a 32-bit big-endian read when the C
code assigns the int expression to a long. -/
def toInt32 (n : Nat) : Int :=
  if n < 2 ^ 31 then (n : Int) else (n : Int) - 2 ^ 32

/-- png_get_capacity of formats.c: seek past the signature, fread 25 bytes
(returning -1 on a short read), then take the four bytes at buffer offset 4
as the width, the four bytes at offset 8 as the height, byte 12 as the bit
depth and byte 13 as the color type, and apply the color-type formula with
the final clamps to at least 10 and at most 1000000.  Division is C long
division (truncation toward zero). -/
def png_get_capacity (input : List Nat) : Int :=
  if ((input.drop 8).take 25).length < 25 then -1
  else
    let buf := (input.drop 8).take 25
    let width := toInt32 (be32 ((buf.drop 4).take 4))
    let height := toInt32 (be32 ((buf.drop 8).take 4))
    let bitDepth : Int := (buf.getD 12 0 : Nat)
    let colorType := buf.getD 13 0
    let cap0 : Int :=
      if colorType = 0 then Int.tdiv (width * height * bitDepth) 8
      else if colorType = 2 then Int.tdiv (width * height * 3 * bitDepth) 8
      else if colorType = 3 then Int.tdiv (width * height) 8 + 256
      else if colorType = 4 then Int.tdiv (width * height * 2 * bitDepth) 8
      else if colorType = 6 then Int.tdiv (width * height * 4 * bitDepth) 8
      else Int.tdiv (width * height * 3) 8
    let cap1 := if cap0 < 10 then 10 else cap0
    if cap1 > 1000000 then 1000000 else cap1

/-- The least-significant-bit-first embedding loop shared by png_embed and
jpeg_embed: while message_pos is below 8 times the message length, the bit
(message byte at message_pos / 8, shifted right by message_pos mod 8, masked
with 1) replaces the least significant bit of the next carrier byte; all
later carrier bytes pass through unchanged.  Returns the processed bytes and
the final message_pos. -/
def embedBitsLSB (msg : List Nat) (pos : Nat) : List Nat → List Nat × Nat
  | [] => ([], pos)
  | b :: bs =>
    if pos < msg.length * 8 then
      let bit := (msg.getD (pos / 8) 0 >>> (pos % 8)) &&& 1
      let r := embedBitsLSB msg (pos + 1) bs
      (((b &&& 254) ||| bit) :: r.1, r.2)
    else (b :: bs, pos)

/-- The chunk loop of png_embed: read an 8-byte chunk header (a short read
ends the loop with STEG_SUCCESS), take the big-endian length from its first
four bytes and the type from its last four, write the header through, embed
into the data of an IDAT chunk and copy any other data unchanged
(STEG_FILE_ERROR when the declared data or the 4-byte CRC cannot be fully
read), copy the CRC unchanged, and stop after an IEND chunk.  The C code
streams chunk data through a 4096-byte buffer; a full block sequence reads
exactly the declared data, so the byte-level result and the error outcome
are those modelled here.  fuel bounds the number of chunk iterations and is
unreachable from the entry point, which passes more fuel than chunks can
exist (each iteration consumes at least 12 bytes). -/
def pngChunkLoop (fuel : Nat) (msg : List Nat) (pos : Nat) (rem : List Nat) :
    StegResult (List Nat) :=
  match fuel with
  | 0 => .error .fileError
  | fuel + 1 =>
    if rem.length < 8 then .ok []
    else
      let hdr := rem.take 8
      let clen := be32 (hdr.take 4)
      let ctype := hdr.drop 4
      let body := rem.drop 8
      if body.length < clen then .error .fileError
      else
        let cdata := body.take clen
        let afterData := body.drop clen
        if afterData.length < 4 then .error .fileError
        else
          let crc := afterData.take 4
          let rest := afterData.drop 4
          let pd := if ctype = idatType then embedBitsLSB msg pos cdata else (cdata, pos)
          if ctype = iendType then .ok (hdr ++ pd.1 ++ crc)
          else
            match pngChunkLoop fuel msg pd.2 rest with
            | .error e => .error e
            | .ok out => .ok (hdr ++ pd.1 ++ crc ++ out)

/-- png_embed of formats.c: copy the first eight bytes (the signature)
through, then run the chunk loop with message_pos starting at 0.  Note the
loop condition stops embedding at 8 times strlen(message): the zero
terminator is never embedded. -/
def png_embed (msg input : List Nat) : StegResult (List Nat) :=
  if input.length < 8 then .error .fileError
  else
    match pngChunkLoop (input.length + 1) msg 0 (input.drop 8) with
    | .error e => .error e
    | .ok out => .ok (input.take 8 ++ out)

/-- The inner byte loop shared by png_extract and jpeg_extract: per carrier
byte, while the output position (the accumulated length) is below the bound,
shift the scratch byte left, or in the carrier byte's least significant bit,
and count the bit; at the eighth bit the assembled byte is stored and the
function returns successfully at once, because the terminator test is made
against the just-cleared scratch byte and therefore always passes.  Returns
either the full output written so far (on that return) or the scratch state
for the following bytes. -/
def scanExtractBytes (bound : Nat) (acc : List Nat) (cur bitc : Nat) :
    List Nat → Option (List Nat) × Nat × Nat
  | [] => (none, cur, bitc)
  | b :: bs =>
    if acc.length < bound then
      let cur1 := ((cur <<< 1) ||| (b &&& 1)) &&& 255
      if bitc + 1 = 8 then (some (acc ++ [cur1]), 0, 0)
      else scanExtractBytes bound acc cur1 (bitc + 1) bs
    else (none, cur, bitc)

/-- The IDAT data loop of png_extract: while bytes of the declared chunk
length remain and the output position is below the bound, fread a block of
at most 4096 bytes (STEG_FILE_ERROR on a short read) and scan it.  Returns
the assembled output on the in-loop return, or the number of data bytes
consumed when the loop ends without it.  fuel is at least one more than the
remaining length at every call from the chunk walk, so the 0 case is
unreachable there. -/
def idatScanBlocks (fuel bound : Nat) (acc : List Nat) (cur bitc remLen : Nat)
    (body : List Nat) : StegResult (Option (List Nat) × Nat) :=
  match fuel with
  | 0 => .error .fileError
  | fuel + 1 =>
    if remLen = 0 ∨ ¬ acc.length < bound then .ok (none, 0)
    else
      let toRead := min 4096 remLen
      if body.length < toRead then .error .fileError
      else
        match scanExtractBytes bound acc cur bitc (body.take toRead) with
        | (some m, _, _) => .ok (some m, toRead)
        | (none, cur1, bitc1) =>
          match idatScanBlocks fuel bound acc cur1 bitc1 (remLen - toRead)
              (body.drop toRead) with
          | .error e => .error e
          | .ok (r, consumed) => .ok (r, toRead + consumed)

/-- The chunk walk of png_extract: read an 8-byte chunk header (a short read
ends the walk with STEG_SUCCESS), scan IDAT data in place (the scratch byte
and bit count restart at every IDAT chunk, and no seek past the IDAT CRC is
performed, exactly as in the C code), seek past the data and CRC of any
other chunk, and stop after IEND.  fuel bounds the iterations and is
unreachable from the entry point since every iteration consumes at least
eight bytes. -/
def pngExtractLoop (fuel bound : Nat) (acc : List Nat) (rem : List Nat) :
    StegResult (List Nat) :=
  match fuel with
  | 0 => .error .fileError
  | fuel + 1 =>
    if rem.length < 8 then .ok acc
    else
      let hdr := rem.take 8
      let clen := be32 (hdr.take 4)
      let ctype := hdr.drop 4
      let body := rem.drop 8
      if ctype = idatType then
        match idatScanBlocks (clen + 1) bound acc 0 0 clen body with
        | .error e => .error e
        | .ok (some m, _) => .ok m
        | .ok (none, consumed) =>
          if ctype = iendType then .ok acc
          else pngExtractLoop fuel bound acc (body.drop consumed)
      else
        if ctype = iendType then .ok acc
        else pngExtractLoop fuel bound acc (body.drop (clen + 4))

/-- png_extract of formats.c: seek past the 8-byte signature and walk the
chunks with the output position bounded by max_len minus one, computed in
size_t arithmetic.  The returned list is the buffer content before the
final null terminator store. -/
def png_extract (maxLen : Nat) (input : List Nat) : StegResult (List Nat) :=
  pngExtractLoop (input.length + 1) ((maxLen + (2 ^ 64 - 1)) % 2 ^ 64) []
    (input.drop 8)

/-- The marker scan both jpeg_embed and jpeg_extract run over a block of scan
data read after SOS: the first index i with i + 1 below the block length such
that byte i is 0xFF and byte i + 1 is not 0x00.  A 0xFF followed by 0x00 (a
stuffing escape) is skipped over. -/
def findMarker (block : List Nat) : Option Nat :=
  (List.range (block.length - 1)).find?
    (fun i => (block.getD i 0 == 255) && !(block.getD (i + 1) 0 == 0))

/-- The scan-data loop of jpeg_embed (after the SOS segment header has been
copied): fread blocks of at most 4096 bytes until a short read of zero bytes
ends the stream; in each block scan for a marker boundary; when one is found
at index i, embed remaining message bits into the bytes before i, write them,
write the marker pair and the rest of the block verbatim, and leave the loop
for the segment walk; otherwise embed into the whole block and continue.
Returns the bytes written by this loop, the input remaining for the segment
walk, and the final message_pos.  fuel exceeds the possible block count from
the entry point. -/
def jpegScanEmbedLoop (fuel : Nat) (msg : List Nat) (pos : Nat) (input : List Nat) :
    List Nat × List Nat × Nat :=
  match fuel with
  | 0 => ([], input, pos)
  | fuel + 1 =>
    if input.isEmpty then ([], [], pos)
    else
      let block := input.take 4096
      let rest := input.drop 4096
      match findMarker block with
      | some i =>
        let pd := embedBitsLSB msg pos (block.take i)
        (pd.1 ++ block.drop i, rest, pd.2)
      | none =>
        let pd := embedBitsLSB msg pos block
        let r := jpegScanEmbedLoop fuel msg pd.2 rest
        (pd.1 ++ r.1, r.2.1, r.2.2)

/-- Entry point of the jpeg_embed scan-data loop. -/
def jpegScanEmbed (msg : List Nat) (pos : Nat) (input : List Nat) :
    List Nat × List Nat × Nat :=
  jpegScanEmbedLoop (input.length + 1) msg pos input

/-- The scan-data loop of jpeg_extract (after the SOS segment has been
skipped): fread blocks of at most 4096 bytes; in each block scan for a marker
boundary; when one is found at index i, accumulate the least significant bits
of the bytes before i (returning the output at once when a byte is assembled,
as scanExtractBytes does) and leave the loop for the segment walk; otherwise
accumulate over the whole block and continue, the scratch byte and bit count
persisting across blocks.  Returns the assembled output when the in-loop
return fires, and otherwise the input remaining for the segment walk with the
scratch state. -/
def jpegScanExtractLoop (fuel bound : Nat) (acc : List Nat) (cur bitc : Nat)
    (input : List Nat) : Option (List Nat) × List Nat × Nat × Nat :=
  match fuel with
  | 0 => (none, input, cur, bitc)
  | fuel + 1 =>
    if input.isEmpty then (none, [], cur, bitc)
    else
      let block := input.take 4096
      let rest := input.drop 4096
      match findMarker block with
      | some i =>
        match scanExtractBytes bound acc cur bitc (block.take i) with
        | (some m, _, _) => (some m, [], 0, 0)
        | (none, cur1, bitc1) => (none, rest, cur1, bitc1)
      | none =>
        match scanExtractBytes bound acc cur bitc block with
        | (some m, _, _) => (some m, [], 0, 0)
        | (none, cur1, bitc1) => jpegScanExtractLoop fuel bound acc cur1 bitc1 rest

/-- Entry point of the jpeg_extract scan-data loop. -/
def jpegScanExtract (bound : Nat) (acc : List Nat) (cur bitc : Nat)
    (input : List Nat) : Option (List Nat) × List Nat × Nat × Nat :=
  jpegScanExtractLoop (input.length + 1) bound acc cur bitc input

/-- A PNG chunk as it sits in the byte stream: the four raw length bytes, the
four type bytes, the data and the four CRC bytes. -/
structure PngChunk where
  lenBytes : List Nat
  ctype : List Nat
  cdata : List Nat
  ccrc : List Nat
deriving DecidableEq, Repr, Inhabited

/-- Well-formedness of a chunk in the stream: four length bytes whose
big-endian value is the data length, a four-byte type and a four-byte CRC. -/
def wfChunk (c : PngChunk) : Prop :=
  c.lenBytes.length = 4 ∧ c.ctype.length = 4 ∧ c.ccrc.length = 4 ∧
    be32 c.lenBytes = c.cdata.length

instance (c : PngChunk) : Decidable (wfChunk c) := by
  unfold wfChunk; infer_instance

/-- The byte serialization of one chunk. -/
def serializeChunk (c : PngChunk) : List Nat :=
  c.lenBytes ++ c.ctype ++ c.cdata ++ c.ccrc

/-- The byte serialization of a chunk sequence. -/
def serializeChunks : List PngChunk → List Nat
  | [] => []
  | c :: cs => serializeChunk c ++ serializeChunks cs

/-- The structural effect of the png_embed chunk loop: IDAT data receives the
least-significant-bit-first embedding with message_pos threaded through the
chunks in order, and every other field of every chunk is unchanged. -/
def embedChunks (msg : List Nat) (pos : Nat) : List PngChunk → List PngChunk × Nat
  | [] => ([], pos)
  | c :: cs =>
    if c.ctype = idatType then
      let pd := embedBitsLSB msg pos c.cdata
      let r := embedChunks msg pd.2 cs
      (⟨c.lenBytes, c.ctype, pd.1, c.ccrc⟩ :: r.1, r.2)
    else
      let r := embedChunks msg pos cs
      (c :: r.1, r.2)

/-- A valid 54-byte BMP header: signature bytes 66 77 (BM), bits_per_pixel
24 at offset 28, compression 0 at offset 30. -/
def bmpHeader54 : List Nat :=
  [66, 77] ++ List.replicate 26 0 ++ [24, 0] ++ List.replicate 24 0

/-- A 70-byte valid BMP container: the header and 16 carrier bytes of value 1,
giving capacity (70 - 54) / 8 = 2. -/
def bmp70 : List Nat := bmpHeader54 ++ List.replicate 16 1

/-- A 78-byte valid BMP container: the header and 24 carrier bytes of value 7,
giving capacity 3, enough for the two-byte message hi and its terminator. -/
def bmpHi : List Nat := bmpHeader54 ++ List.replicate 24 7

/-- The two message bytes of the ASCII string hi. -/
def hiMsg : List Nat := [104, 105]

/-- A well-formed IHDR chunk (13 data bytes: width 4, height 4, bit depth 8,
color type 2, three trailing zero bytes; the CRC bytes are arbitrary). -/
def ihdrChunk : PngChunk :=
  ⟨[0, 0, 0, 13], [73, 72, 68, 82], [0, 0, 0, 4, 0, 0, 0, 4, 8, 2, 0, 0, 0],
   [1, 2, 3, 4]⟩

/-- An IDAT chunk with 24 even data bytes (all least significant bits 0). -/
def idatZero : PngChunk := ⟨[0, 0, 0, 24], idatType, List.replicate 24 4, [5, 6, 7, 8]⟩

/-- An IEND chunk with no data. -/
def iendChunk : PngChunk := ⟨[0, 0, 0, 0], iendType, [], [9, 10, 11, 12]⟩

/-- The chunk sequence of the concrete PNG container used for the round-trip
evaluation. -/
def pngRoundtripChunks : List PngChunk := [ihdrChunk, idatZero, iendChunk]

/-- The concrete PNG container used for the round-trip evaluation. -/
def pngC : List Nat := pngSignatureBytes ++ serializeChunks pngRoundtripChunks

/-- An IDAT chunk whose 24 data bytes carry, in their least significant bits,
the bytes 104, 105, 0 (hi and the terminator) least-significant-bit first,
exactly as png_embed would have to store them for a faithful round trip. -/
def idatHi : PngChunk :=
  ⟨[0, 0, 0, 24], idatType,
   [4, 4, 4, 5, 4, 5, 5, 4, 5, 4, 4, 5, 4, 5, 5, 4, 4, 4, 4, 4, 4, 4, 4, 4],
   [5, 6, 7, 8]⟩

/-- The concrete PNG container whose IDAT least significant bits spell the
message hi followed by the zero terminator. -/
def pngD : List Nat :=
  pngSignatureBytes ++ serializeChunks [ihdrChunk, idatHi, iendChunk]


lemma getD_take_lt (l : List Nat) (n i : Nat) (h : i < n) :
    (l.take n).getD i 0 = l.getD i 0 := by
  induction l generalizing n i with
  | nil => simp
  | cons a l ih =>
    cases n with
    | zero => omega
    | succ n =>
      cases i with
      | zero => simp
      | succ i => simpa using ih n i (by omega)

lemma getD_drop (l : List Nat) (n i : Nat) : (l.drop n).getD i 0 = l.getD (n + i) 0 := by
  induction l generalizing n with
  | nil => simp
  | cons a l ih =>
    cases n with
    | zero => simp
    | succ n => simp [Nat.succ_add, ih n]

lemma capacity_formula (S : Nat) (h54 : 54 ≤ S) (hS : S < 2 ^ 64) :
    calculate_message_capacity S = (S - 54) / 8 := by
  unfold calculate_message_capacity
  have h2 : (2 : Nat) ^ 64 = 18446744073709551616 := by norm_num
  rw [h2] at hS ⊢
  omega

lemma validate_ok_length (input : List Nat) (h : validate_bmp_format input = .ok ()) :
    54 ≤ input.length := by
  unfold validate_bmp_format at h
  split_ifs at h
  simp_all

lemma bitsOfBytesMSB_length (l : List Nat) : (bitsOfBytesMSB l).length = 8 * l.length := by
  induction l with
  | nil => rfl
  | cons c cs ih =>
    simp only [bitsOfBytesMSB, List.length_append, List.length_cons, ih, byteBitsMSB,
      List.length_nil]
    omega

lemma embedBitsW_ok (bits pixels : List Nat) (h : bits.length ≤ pixels.length) :
    (embedBitsW bits pixels).1 = .ok () := by
  induction bits generalizing pixels with
  | nil => rfl
  | cons b bs ih =>
    cases pixels with
    | nil => simp at h
    | cons p ps =>
      simpa [embedBitsW] using ih ps (by simpa using Nat.le_of_succ_le_succ h)

lemma embedBitsW_len (bits pixels : List Nat) (h : bits.length ≤ pixels.length) :
    (embedBitsW bits pixels).2.length = pixels.length := by
  induction bits generalizing pixels with
  | nil => rfl
  | cons b bs ih =>
    cases pixels with
    | nil => simp at h
    | cons p ps =>
      simpa [embedBitsW] using ih ps (by simpa using Nat.le_of_succ_le_succ h)

lemma embedBitsW_getD (bits pixels : List Nat) (h : bits.length ≤ pixels.length) (i : Nat) :
    (embedBitsW bits pixels).2.getD i 0 =
      if i < bits.length then ((pixels.getD i 0) &&& 254) ||| bits.getD i 0
      else pixels.getD i 0 := by
  induction bits generalizing pixels i with
  | nil => simp [embedBitsW]
  | cons b bs ih =>
    cases pixels with
    | nil => simp at h
    | cons p ps =>
      cases i with
      | zero => simp [embedBitsW]
      | succ i =>
        have hh : bs.length ≤ ps.length := by simpa using Nat.le_of_succ_le_succ h
        simpa [embedBitsW] using ih ps hh i

lemma embedBitsW_status (bits pixels : List Nat) :
    (embedBitsW bits pixels).1 = .ok () ∨ (embedBitsW bits pixels).1 = .error .fileError := by
  induction bits generalizing pixels with
  | nil => left; rfl
  | cons b bs ih =>
    cases pixels with
    | nil => right; rfl
    | cons p ps => simpa [embedBitsW] using ih ps

lemma extractLoopF_error_eq (fuel bound : Nat) (acc pixels : List Nat) (e : StegErr)
    (h : extractLoopF fuel bound acc pixels = .error e) : e = .fileError := by
  induction fuel generalizing acc pixels with
  | zero =>
    simp only [extractLoopF] at h
    injection h with h1
    exact h1.symm
  | succ fuel ih =>
    unfold extractLoopF at h
    split_ifs at h with hb h8 hz <;>
      first
      | (injection h with h1; exact h1.symm)
      | exact StegResult.noConfusion h
      | exact ih _ _ h

lemma extractLoopF_fileError_iff (fuel : Nat) :
    ∀ (pixels : List Nat) (bound : Nat) (acc : List Nat),
      pixels.length < 8 * fuel →
      (extractLoopF fuel bound acc pixels = .error .fileError ↔
        (acc.length + pixels.length / 8 < bound ∧
          ∀ j, j < pixels.length / 8 →
            assembleMSB ((pixels.drop (8 * j)).take 8) ≠ 0)) := by
  induction fuel with
  | zero => intro pixels bound acc h; exact absurd h (by omega)
  | succ fuel ih =>
    intro pixels bound acc h
    unfold extractLoopF
    by_cases hb : acc.length < bound
    · rw [if_pos hb]
      by_cases h8 : pixels.length < 8
      · rw [if_pos h8]
        have hq : pixels.length / 8 = 0 := Nat.div_eq_of_lt h8
        simp [hq, hb]
      · rw [if_neg h8]
        have hq1 : 1 ≤ pixels.length / 8 := by omega
        by_cases hz : assembleMSB (pixels.take 8) = 0
        · rw [if_pos hz]
          constructor
          · intro hcontra; exact absurd hcontra (by simp)
          · rintro ⟨-, hall⟩
            have h0 := hall 0 hq1
            simp at h0
            exact absurd hz h0
        · rw [if_neg hz]
          have hlen : (pixels.drop 8).length = pixels.length - 8 := by simp
          have ihh := ih (pixels.drop 8) bound (acc ++ [assembleMSB (pixels.take 8)])
            (by omega)
          rw [ihh]
          have hq : (pixels.drop 8).length / 8 = pixels.length / 8 - 1 := by
            rw [hlen]; omega
          have hacc : (acc ++ [assembleMSB (pixels.take 8)]).length = acc.length + 1 := by
            simp
          constructor
          · rintro ⟨hlt, hall⟩
            refine ⟨by omega, ?_⟩
            intro j hj
            cases j with
            | zero => simpa using hz
            | succ j =>
              have hj1 : j < (pixels.drop 8).length / 8 := by omega
              have hjj := hall j hj1
              rw [List.drop_drop] at hjj
              have harith : 8 + 8 * j = 8 * (j + 1) := by ring
              rwa [harith] at hjj
          · rintro ⟨hlt, hall⟩
            refine ⟨by omega, ?_⟩
            intro j hj
            have hj1 : j + 1 < pixels.length / 8 := by omega
            have hjj := hall (j + 1) hj1
            rw [List.drop_drop]
            have harith : 8 + 8 * j = 8 * (j + 1) := by ring
            rwa [harith]
    · rw [if_neg hb]
      constructor
      · intro hcontra; exact absurd hcontra (by simp)
      · rintro ⟨hlt, -⟩; omega

/-- Claim C2: for every BMP container stream of total size S with S at least
54, estimateCapacity (calculate_message_capacity) returns exactly
(S - 54) / 8 with integer division, one message byte per eight post-header
carrier bytes.  The extra bound S below 2 ^ 64 reflects that the size_t file
size fits the machine word. -/
theorem bmp_capacity_formula (S : Nat) (h54 : 54 ≤ S) (hS : S < 2 ^ 64) :
    calculate_message_capacity S = (S - 54) / 8 :=
  capacity_formula S h54 hS

/-- Witness for C2: the concrete scenario size 30054 gives capacity 3750. -/
theorem bmp_capacity_formula_witness : calculate_message_capacity 30054 = 3750 := by
  rw [bmp_capacity_formula 30054 (by norm_num) (by norm_num)]

/-- Counterexample to C4 as stated: an input of 14 zero bytes has fewer than
54 bytes available, yet validate returns InvalidFormat (the signature check
runs before the info-header read), not FileError. -/
theorem bmp_validate_short_bad_signature_counterexample :
    validate_bmp_format (List.replicate 14 0) = .error .invalidBmp ∧
    (List.replicate 14 0).length < 54 := by decide

/-- Claim C4 (amended): validate fails with FileError when fewer than 14
bytes are available, or when the signature reads BM but fewer than 54 bytes
are available; it fails with InvalidFormat when at least 14 bytes are
available and the signature is not BM, or when 54 bytes are available, the
signature is BM, and bits-per-pixel is not 24 or compression is not 0; it
succeeds exactly when 54 bytes are available, the signature is BM,
bits-per-pixel is 24 and compression is 0. -/
theorem bmp_validate_cases (input : List Nat) :
    (validate_bmp_format input = .error .fileError ↔
      (input.length < 14 ∨ (bmpSignatureField input = 19778 ∧ input.length < 54))) ∧
    (validate_bmp_format input = .error .invalidBmp ↔
      ((14 ≤ input.length ∧ bmpSignatureField input ≠ 19778) ∨
        (54 ≤ input.length ∧ bmpSignatureField input = 19778 ∧
          (bmpBitsPerPixelField input ≠ 24 ∨ bmpCompressionField input ≠ 0)))) ∧
    (validate_bmp_format input = .ok () ↔
      (54 ≤ input.length ∧ bmpSignatureField input = 19778 ∧
        bmpBitsPerPixelField input = 24 ∧ bmpCompressionField input = 0)) := by
  unfold validate_bmp_format
  split_ifs with h1 h2 h3 h4 h5 <;>
    refine ⟨?_, ?_, ?_⟩ <;> simp_all <;> omega

/-- Counterexample to C3 as stated: bmp70 is a validated container of
capacity 2, yet embedding a message of exactly 2 bytes fails with
InsufficientCapacity instead of succeeding. -/
theorem bmp_embed_exact_capacity_fails_counterexample :
    validate_bmp_format bmp70 = .ok () ∧
    calculate_message_capacity bmp70.length = 2 ∧
    embed_message [65, 66] bmp70 = (.error .insufficientCapacity, []) := by decide

/-- Claim C3 (amended): for every validated container, embedding succeeds
exactly when the message length plus one (for the terminator) is at most the
capacity — so a message of exactly capacity minus one bytes succeeds — and
every message of capacity or more bytes (in particular exactly capacity and
capacity plus one) fails with InsufficientCapacity. -/
theorem bmp_embed_capacity_boundary (msg input : List Nat)
    (hv : validate_bmp_format input = .ok ())
    (hS : input.length < 2 ^ 64) :
    (msg.length + 1 ≤ calculate_message_capacity input.length →
      (embed_message msg input).1 = .ok ()) ∧
    (calculate_message_capacity input.length < msg.length + 1 →
      (embed_message msg input).1 = .error .insufficientCapacity) := by
  have h54 := validate_ok_length input hv
  have hcap := capacity_formula input.length h54 hS
  constructor
  · intro hle
    unfold embed_message
    rw [hv]
    rw [if_neg (by omega)]
    rw [if_neg (by omega)]
    refine embedBitsW_ok _ _ ?_
    rw [bitsOfBytesMSB_length, List.length_drop, List.length_append]
    have h8 : 8 * (msg.length + 1) ≤ input.length - 54 := by
      rw [hcap] at hle
      omega
    simpa using h8
  · intro hgt
    unfold embed_message
    rw [hv]
    rw [if_pos (by omega)]

/-- Witness for amended C3: in bmp70 (capacity 2) a one-byte message
succeeds and a two-byte message is rejected with InsufficientCapacity. -/
theorem bmp_embed_capacity_boundary_witness :
    (embed_message [65] bmp70).1 = .ok () ∧
    (embed_message [65, 66] bmp70).1 = .error .insufficientCapacity :=
  ⟨(bmp_embed_capacity_boundary [65] bmp70 (by decide) (by decide)).1 (by decide),
   (bmp_embed_capacity_boundary [65, 66] bmp70 (by decide) (by decide)).2 (by decide)⟩

/-- Claim C5: for every valid 24-bit BMP source and message fitting the
capacity, embed succeeds, the output has the source length, the 54-byte
header is unchanged, every byte from offset 54 + 8 * (L + 1) on is
byte-identical to the source, and each of the first 8 * (L + 1) post-header
bytes equals the source byte with its least significant bit replaced by the
corresponding bit of the message-plus-terminator bit stream, taken
most-significant-bit first per byte. -/
theorem bmp_embed_frame_effect (msg input : List Nat)
    (hv : validate_bmp_format input = .ok ())
    (hS : input.length < 2 ^ 64)
    (hcap : msg.length + 1 ≤ calculate_message_capacity input.length) :
    (embed_message msg input).1 = .ok () ∧
    (embed_message msg input).2.length = input.length ∧
    (∀ i, i < 54 → (embed_message msg input).2.getD i 0 = input.getD i 0) ∧
    (∀ i, 54 + 8 * (msg.length + 1) ≤ i →
      (embed_message msg input).2.getD i 0 = input.getD i 0) ∧
    (∀ i, i < 8 * (msg.length + 1) →
      (embed_message msg input).2.getD (54 + i) 0 =
        ((input.getD (54 + i) 0) &&& 254) |||
          (bitsOfBytesMSB (msg ++ [0])).getD i 0) := by
  have h54 := validate_ok_length input hv
  have hcapf := capacity_formula input.length h54 hS
  have hbitlen : (bitsOfBytesMSB (msg ++ [0])).length = 8 * (msg.length + 1) := by
    rw [bitsOfBytesMSB_length]
    simp
  have hpixlen : (input.drop 54).length = input.length - 54 := by simp
  have hle : (bitsOfBytesMSB (msg ++ [0])).length ≤ (input.drop 54).length := by
    rw [hbitlen, hpixlen]
    rw [hcapf] at hcap
    omega
  have htk : (input.take 54).length = 54 := by
    simp
    omega
  have hred : embed_message msg input =
      ((embedBitsW (bitsOfBytesMSB (msg ++ [0])) (input.drop 54)).1,
        input.take 54 ++ (embedBitsW (bitsOfBytesMSB (msg ++ [0])) (input.drop 54)).2) := by
    unfold embed_message
    rw [hv]
    rw [if_neg (by omega)]
    rw [if_neg (by omega)]
  rw [hred]
  refine ⟨embedBitsW_ok _ _ hle, ?_, ?_, ?_, ?_⟩
  · rw [List.length_append, htk, embedBitsW_len _ _ hle, hpixlen]
    omega
  · intro i hi
    rw [List.getD_append _ _ _ _ (by omega)]
    rw [getD_take_lt _ _ _ hi]
  · intro i hi
    rw [List.getD_append_right _ _ _ _ (by omega)]
    rw [embedBitsW_getD _ _ hle, htk]
    rw [if_neg (by rw [hbitlen]; omega)]
    rw [getD_drop]
    congr 1
    omega
  · intro i hi
    rw [List.getD_append_right _ _ _ _ (by omega)]
    rw [embedBitsW_getD _ _ hle, htk]
    have hidx : 54 + i - 54 = i := by omega
    rw [hidx]
    rw [if_pos (by rw [hbitlen]; omega)]
    rw [getD_drop]

/-- Witness for C5: embedding hi (two bytes, so 24 modified carrier bytes)
into the 78-byte container bmpHi succeeds with an output of the source
length, an unchanged first header byte, and the first post-header byte
carrying the most significant bit of the letter h. -/
theorem bmp_embed_frame_effect_witness :
    (embed_message hiMsg bmpHi).1 = .ok () ∧
    (embed_message hiMsg bmpHi).2.length = bmpHi.length ∧
    (embed_message hiMsg bmpHi).2.getD 0 0 = bmpHi.getD 0 0 ∧
    (embed_message hiMsg bmpHi).2.getD 54 0 =
      ((bmpHi.getD 54 0) &&& 254) ||| (bitsOfBytesMSB (hiMsg ++ [0])).getD 0 0 := by
  have h := bmp_embed_frame_effect hiMsg bmpHi (by decide) (by decide) (by decide)
  exact ⟨h.1, h.2.1, h.2.2.1 0 (by decide), by simpa using h.2.2.2.2 0 (by decide)⟩

/-- Counterexample to C8 as stated: on the validated container bmp70, whose
two reconstructible characters are both 255 (no terminator anywhere), extract
with max_len 2 reaches the output bound after one character and returns
STEG_SUCCESS with that character — the claim says reaching the bound before
a terminator fails with FileError. -/
theorem bmp_extract_bound_reached_succeeds_counterexample :
    extract_message 2 bmp70 = .ok [255] ∧
    (∀ j, j < (bmp70.drop 54).length / 8 →
      assembleMSB (((bmp70.drop 54).drop (8 * j)).take 8) ≠ 0) := by decide

/-- Claim C8 (amended): for a validated container and a positive buffer
size, extract fails with FileError exactly when the carrier stream holds
fewer than eight times (max_len - 1) spare bytes — so it runs out before
both a terminator and the output bound — and no reconstructible character is
zero; FileError is moreover the only possible error.  In particular,
reaching the output bound before a terminator returns success, not
FileError. -/
theorem bmp_extract_fileError_characterization (maxLen : Nat) (input : List Nat)
    (hv : validate_bmp_format input = .ok ())
    (h1 : 1 ≤ maxLen) :
    (extract_message maxLen input = .error .fileError ↔
      ((input.drop 54).length / 8 < maxLen - 1 ∧
        ∀ j, j < (input.drop 54).length / 8 →
          assembleMSB (((input.drop 54).drop (8 * j)).take 8) ≠ 0)) ∧
    (∀ e, extract_message maxLen input = .error e → e = .fileError) := by
  have hred : extract_message maxLen input =
      extractLoopF ((input.drop 54).length + 1) (maxLen - 1) [] (input.drop 54) := by
    unfold extract_message
    rw [if_neg (by omega), hv]
  constructor
  · rw [hred]
    have hiff := extractLoopF_fileError_iff ((input.drop 54).length + 1)
      (input.drop 54) (maxLen - 1) [] (by omega)
    rw [hiff]
    simp
  · intro e he
    rw [hred] at he
    exact extractLoopF_error_eq _ _ _ _ _ he

/-- Witness for amended C8: bmp70 holds 16 carrier bytes (two characters,
neither zero), so extraction with max_len 4 exhausts the stream before the
bound of 3 characters and fails with FileError. -/
theorem bmp_extract_fileError_characterization_witness :
    extract_message 4 bmp70 = .error .fileError :=
  ((bmp_extract_fileError_characterization 4 bmp70 (by decide) (by decide)).1).mpr
    (by decide)

/-- Claim C10: when BMP embed fails with InvalidFormat or with
InsufficientCapacity, nothing has been written to the output stream: both
checks run before the header write, so the destination is left empty. -/
theorem bmp_embed_no_output_on_precheck_failure (msg input : List Nat)
    (h : (embed_message msg input).1 = .error .invalidBmp ∨
      (embed_message msg input).1 = .error .insufficientCapacity) :
    (embed_message msg input).2 = [] := by
  cases hval : validate_bmp_format input with
  | error e =>
    unfold embed_message
    rw [hval]
  | ok u =>
    by_cases hc : msg.length + 1 > calculate_message_capacity input.length
    · unfold embed_message
      rw [hval, if_pos hc]
    · by_cases hl : input.length < 54
      · unfold embed_message
        rw [hval, if_neg hc, if_pos hl]
      · exfalso
        have hred : embed_message msg input =
            ((embedBitsW (bitsOfBytesMSB (msg ++ [0])) (input.drop 54)).1,
              input.take 54 ++ (embedBitsW (bitsOfBytesMSB (msg ++ [0])) (input.drop 54)).2) := by
          unfold embed_message
          rw [hval, if_neg hc, if_neg hl]
        rw [hred] at h
        rcases embedBitsW_status (bitsOfBytesMSB (msg ++ [0])) (input.drop 54) with hs | hs <;>
          rcases h with h | h <;> rw [hs] at h <;> simp at h

/-- Witness for C10: a three-byte message exceeds the capacity 2 of bmp70;
the embed fails and the output stream stays empty. -/
theorem bmp_embed_no_output_witness :
    (embed_message [65, 66, 67] bmp70).2 = [] :=
  bmp_embed_no_output_on_precheck_failure [65, 66, 67] bmp70 (Or.inr (by decide))

/-- Claim C1, evaluated at its failing input (status: the code violates the
claim).  The container pngC passes png_validate and reports capacity 10, so
the message hi satisfies len + 1 = 3 <= capacity; yet extracting from the
stream produced by embedding returns the single byte 22 (the first eight
IDAT least significant bits reassembled in the opposite bit order), not hi:
png_embed never embeds the terminator, png_extract assembles bits
most-significant-bit first while png_embed stores them least-significant-bit
first, and the always-true terminator test makes png_extract return after
its first assembled byte. -/
theorem png_roundtrip_failure_evaluation :
    png_validate pngC = true ∧
    (3 : Int) ≤ png_get_capacity pngC ∧
    StegResult.bind (png_embed hiMsg pngC) (fun out => png_extract 4096 out) =
      .ok [22] ∧
    ([22] : List Nat) ≠ hiMsg := by decide

/-- Claim C7, evaluated at its failing input (status: the code violates the
claim).  In pngD the IDAT data carries the bytes 104, 105, 0 in its least
significant bits, least-significant-bit first, so the claimed extractor
behaviour would return hi = [104, 105]; the code instead returns [22],
the first eight least significant bits assembled most-significant-bit first,
because the null-terminator test is made against the just-cleared scratch
byte and therefore fires after the first assembled byte regardless of its
value. -/
theorem png_extract_first_byte_evaluation :
    png_validate pngD = true ∧
    png_extract 4096 pngD = .ok [22] ∧
    ([22] : List Nat) ≠ [104, 105] := by decide

lemma embedChunks_spec (msg : List Nat) :
    ∀ (cs : List PngChunk) (pos : Nat),
      ((embedChunks msg pos cs).1.length = cs.length) ∧
      ∀ i, i < cs.length →
        ((embedChunks msg pos cs).1.getD i default).lenBytes =
          (cs.getD i default).lenBytes ∧
        ((embedChunks msg pos cs).1.getD i default).ctype = (cs.getD i default).ctype ∧
        ((embedChunks msg pos cs).1.getD i default).ccrc = (cs.getD i default).ccrc ∧
        ((cs.getD i default).ctype ≠ idatType →
          ((embedChunks msg pos cs).1.getD i default).cdata =
            (cs.getD i default).cdata) := by
  intro cs
  induction cs with
  | nil => intro pos; exact ⟨rfl, fun i hi => absurd hi (by simp)⟩
  | cons c cs ih =>
    intro pos
    by_cases hidat : c.ctype = idatType
    · have hred : embedChunks msg pos (c :: cs) =
          (⟨c.lenBytes, c.ctype, (embedBitsLSB msg pos c.cdata).1, c.ccrc⟩ ::
            (embedChunks msg (embedBitsLSB msg pos c.cdata).2 cs).1,
           (embedChunks msg (embedBitsLSB msg pos c.cdata).2 cs).2) := by
        simp [embedChunks, hidat]
      rw [hred]
      refine ⟨by simp [(ih _).1], ?_⟩
      intro i hi
      cases i with
      | zero => exact ⟨rfl, rfl, rfl, fun hne => absurd hidat hne⟩
      | succ i =>
        have hii := (ih (embedBitsLSB msg pos c.cdata).2).2 i (by simpa using hi)
        simpa using hii
    · have hred : embedChunks msg pos (c :: cs) =
          (c :: (embedChunks msg pos cs).1, (embedChunks msg pos cs).2) := by
        simp [embedChunks, hidat]
      rw [hred]
      refine ⟨by simp [(ih _).1], ?_⟩
      intro i hi
      cases i with
      | zero => exact ⟨rfl, rfl, rfl, fun _ => rfl⟩
      | succ i =>
        have hii := (ih pos).2 i (by simpa using hi)
        simpa using hii

lemma pngChunkLoop_serialize (msg : List Nat) :
    ∀ (cs : List PngChunk) (pos fuel : Nat),
      (∀ c ∈ cs, wfChunk c) →
      (∀ i, i < cs.length - 1 → (cs.getD i default).ctype ≠ iendType) →
      (serializeChunks cs).length < fuel →
      pngChunkLoop fuel msg pos (serializeChunks cs) =
        .ok (serializeChunks (embedChunks msg pos cs).1) := by
  intro cs
  induction cs with
  | nil =>
    intro pos fuel hwf hIend hfuel
    cases fuel with
    | zero => exact absurd hfuel (by simp)
    | succ fuel => simp [pngChunkLoop, serializeChunks, embedChunks]
  | cons c cs ih =>
    intro pos fuel hwf hIend hfuel
    obtain ⟨hl4, ht4, hc4, hlen⟩ := hwf c (List.mem_cons_self c cs)
    cases fuel with
    | zero => exact absurd hfuel (by omega)
    | succ fuel =>
      have hassoc : serializeChunks (c :: cs) =
          (c.lenBytes ++ c.ctype) ++ (c.cdata ++ (c.ccrc ++ serializeChunks cs)) := by
        simp [serializeChunks, serializeChunk]
      have hlen8 : (c.lenBytes ++ c.ctype).length = 8 := by simp [hl4, ht4]
      have htotal : (serializeChunks (c :: cs)).length =
          8 + c.cdata.length + 4 + (serializeChunks cs).length := by
        rw [hassoc]
        simp [hlen8, hc4]
        omega
      unfold pngChunkLoop
      rw [hassoc]
      rw [if_neg (by rw [← hassoc, htotal]; omega)]
      dsimp only
      rw [List.take_left' hlen8, List.drop_left' hlen8]
      rw [List.take_left' hl4, List.drop_left' hl4]
      rw [hlen]
      rw [if_neg (by simp [hc4])]
      rw [List.take_left' rfl, List.drop_left' rfl]
      rw [if_neg (by simp [hc4])]
      rw [List.take_left' hc4, List.drop_left' hc4]
      by_cases hiend : c.ctype = iendType
      · rw [if_pos hiend]
        have hcs : cs = [] := by
          by_contra hne
          have hpos : 0 < cs.length := List.length_pos.mpr hne
          have h0 := hIend 0 (by simp only [List.length_cons]; omega)
          exact absurd hiend (by simpa using h0)
        subst hcs
        have hnidat : ¬ c.ctype = idatType := by
          rw [hiend]; decide
        rw [if_neg hnidat]
        simp [embedChunks, hnidat, serializeChunks, serializeChunk]
      · rw [if_neg hiend]
        have hwf2 : ∀ x ∈ cs, wfChunk x := fun x hx => hwf x (List.mem_cons_of_mem c hx)
        have hIend2 : ∀ i, i < cs.length - 1 → (cs.getD i default).ctype ≠ iendType := by
          intro i hi
          have := hIend (i + 1) (by simp [List.length_cons]; omega)
          simpa using this
        have hfuel2 : (serializeChunks cs).length < fuel := by
          rw [htotal] at hfuel
          omega
        by_cases hidat : c.ctype = idatType
        · rw [if_pos hidat]
          rw [ih (embedBitsLSB msg pos c.cdata).2 fuel hwf2 hIend2 hfuel2]
          have hred : embedChunks msg pos (c :: cs) =
              (⟨c.lenBytes, c.ctype, (embedBitsLSB msg pos c.cdata).1, c.ccrc⟩ ::
                (embedChunks msg (embedBitsLSB msg pos c.cdata).2 cs).1,
               (embedChunks msg (embedBitsLSB msg pos c.cdata).2 cs).2) := by
            simp [embedChunks, hidat]
          rw [hred]
          simp [serializeChunks, serializeChunk]
        · rw [if_neg hidat]
          rw [ih pos fuel hwf2 hIend2 hfuel2]
          have hred : embedChunks msg pos (c :: cs) =
              (c :: (embedChunks msg pos cs).1, (embedChunks msg pos cs).2) := by
            simp [embedChunks, hidat]
          rw [hred]
          simp [serializeChunks, serializeChunk]

/-- Claim C6: for every PNG container made of the signature followed by
well-formed chunks with IEND only in last position, png_embed succeeds and
every byte outside IDAT chunk data is byte-identical between source and
output: the signature is copied, and every chunk of the output has the same
length bytes, the same type and the same trailing CRC (never recomputed,
also for IDAT), with the data of every non-IDAT chunk unchanged. -/
theorem png_embed_non_idat_passthrough (msg : List Nat) (cs : List PngChunk)
    (hwf : ∀ c ∈ cs, wfChunk c)
    (hIend : ∀ i, i < cs.length - 1 → (cs.getD i default).ctype ≠ iendType) :
    ∃ cs' : List PngChunk,
      png_embed msg (pngSignatureBytes ++ serializeChunks cs) =
        .ok (pngSignatureBytes ++ serializeChunks cs') ∧
      cs'.length = cs.length ∧
      ∀ i, i < cs.length →
        (cs'.getD i default).lenBytes = (cs.getD i default).lenBytes ∧
        (cs'.getD i default).ctype = (cs.getD i default).ctype ∧
        (cs'.getD i default).ccrc = (cs.getD i default).ccrc ∧
        ((cs.getD i default).ctype ≠ idatType →
          (cs'.getD i default).cdata = (cs.getD i default).cdata) := by
  refine ⟨(embedChunks msg 0 cs).1, ?_, (embedChunks_spec msg cs 0).1,
    (embedChunks_spec msg cs 0).2⟩
  have hsig : pngSignatureBytes.length = 8 := by decide
  unfold png_embed
  rw [if_neg (by simp [hsig])]
  rw [List.take_left' hsig, List.drop_left' hsig]
  rw [pngChunkLoop_serialize msg cs 0 ((pngSignatureBytes ++ serializeChunks cs).length + 1)
    hwf hIend (by simp [hsig]; omega)]

/-- Witness for C6: embedding hi into the three-chunk container of pngC
(IHDR, IDAT, IEND) keeps every non-IDAT byte identical. -/
theorem png_embed_non_idat_passthrough_witness :
    ∃ cs' : List PngChunk,
      png_embed hiMsg (pngSignatureBytes ++ serializeChunks pngRoundtripChunks) =
        .ok (pngSignatureBytes ++ serializeChunks cs') ∧
      cs'.length = pngRoundtripChunks.length ∧
      ∀ i, i < pngRoundtripChunks.length →
        (cs'.getD i default).lenBytes = (pngRoundtripChunks.getD i default).lenBytes ∧
        (cs'.getD i default).ctype = (pngRoundtripChunks.getD i default).ctype ∧
        (cs'.getD i default).ccrc = (pngRoundtripChunks.getD i default).ccrc ∧
        ((pngRoundtripChunks.getD i default).ctype ≠ idatType →
          (cs'.getD i default).cdata = (pngRoundtripChunks.getD i default).cdata) :=
  png_embed_non_idat_passthrough hiMsg pngRoundtripChunks (by decide) (by decide)

lemma findMarker_none_of_stuffed (s : List Nat)
    (hstuff : ∀ i, i < s.length - 1 → s.getD i 0 = 255 → s.getD (i + 1) 0 = 0) :
    findMarker s = none := by
  unfold findMarker
  rw [List.find?_eq_none]
  intro i hi
  rw [List.mem_range] at hi
  by_cases h255 : s.getD i 0 = 255
  · have h0 := hstuff i hi h255
    rw [List.getD_eq_getElem?_getD] at h255 h0
    simp [h255, h0]
  · rw [List.getD_eq_getElem?_getD] at h255
    simp [h255]

lemma jpegScanEmbedLoop_nil (fuel : Nat) (msg : List Nat) (p : Nat) :
    jpegScanEmbedLoop fuel msg p [] = ([], [], p) := by
  cases fuel <;> simp [jpegScanEmbedLoop]

lemma jpegScanExtractLoop_nil (fuel bound : Nat) (acc : List Nat) (cur bitc : Nat) :
    jpegScanExtractLoop fuel bound acc cur bitc [] = (none, [], cur, bitc) := by
  cases fuel <;> simp [jpegScanExtractLoop]

/-- Claim C9: in a block of JPEG scan data in which every 0xFF byte is
followed by 0x00 (every 0xFF is a stuffed escape), no segment boundary is
detected — the boundary scan finds an index only at a 0xFF followed by a
non-zero byte — and both the embed loop and the extract loop treat every
byte of the block, the 0xFF 0x00 pairs included, as ordinary carrier data:
the embed loop applies the plain least-significant-bit embedding to the
whole block, and the extract loop applies the plain bit accumulation to the
whole block. -/
theorem jpeg_stuffed_pair_is_carrier_data (msg : List Nat) (pos bound cur bitc : Nat)
    (acc : List Nat) (s : List Nat)
    (hlen : s.length ≤ 4096)
    (hstuff : ∀ i, i < s.length - 1 → s.getD i 0 = 255 → s.getD (i + 1) 0 = 0) :
    findMarker s = none ∧
    jpegScanEmbed msg pos s =
      ((embedBitsLSB msg pos s).1, [], (embedBitsLSB msg pos s).2) ∧
    jpegScanExtract bound acc cur bitc s =
      (match scanExtractBytes bound acc cur bitc s with
       | (some m, _, _) => (some m, [], 0, 0)
       | (none, c1, b1) => (none, [], c1, b1)) := by
  have hfm := findMarker_none_of_stuffed s hstuff
  refine ⟨hfm, ?_, ?_⟩
  · by_cases hs : s = []
    · subst hs; rfl
    · unfold jpegScanEmbed
      unfold jpegScanEmbedLoop
      rw [if_neg (by simpa [List.isEmpty_iff] using hs)]
      dsimp only
      rw [List.take_of_length_le hlen, List.drop_eq_nil_of_le hlen, hfm]
      rw [jpegScanEmbedLoop_nil]
      simp
  · by_cases hs : s = []
    · subst hs
      simp [jpegScanExtract, jpegScanExtractLoop, scanExtractBytes]
    · unfold jpegScanExtract
      unfold jpegScanExtractLoop
      rw [if_neg (by simpa [List.isEmpty_iff] using hs)]
      dsimp only
      rw [List.take_of_length_le hlen, List.drop_eq_nil_of_le hlen, hfm]
      rcases hscan : scanExtractBytes bound acc cur bitc s with ⟨om, c1, b1⟩
      cases om with
      | some m => rfl
      | none => simp [jpegScanExtractLoop_nil]

/-- Witness for C9: the four-byte block 255, 0, 6, 7 contains the stuffed
pair 255 0; embedding the byte 104 starting at bit position 0 runs straight
through all four bytes. -/
theorem jpeg_stuffed_pair_witness :
    jpegScanEmbed [104] 0 [255, 0, 6, 7] =
      ((embedBitsLSB [104] 0 [255, 0, 6, 7]).1, [],
        (embedBitsLSB [104] 0 [255, 0, 6, 7]).2) :=
  (jpeg_stuffed_pair_is_carrier_data [104] 0 4095 0 0 [] [255, 0, 6, 7]
    (by decide) (by decide)).2.1
